import Mathlib

/-!
Shallow embedding of the icon-catalog repository's manifest-generation
pipeline (the generate-manifest script) and of the batched object-storage
uploader, together with theorems checking the specified behaviour of the
slug normalizer, filename parser, descriptor fallback, catalog builder,
manifest writer and uploader configuration.
-/

namespace IconCatalog

/-- The character class `[a-z0-9]` used by `slugify`'s replacement regex. -/
def isAlnumLower (c : Char) : Bool :=
  (97 ≤ c.toNat && c.toNat ≤ 122) || (48 ≤ c.toNat && c.toNat ≤ 57)

/-- Model of JavaScript `String.prototype.toLowerCase` restricted to the
ASCII (`A`-`Z`) and Latin-1 (`À`-`Þ`, excluding `×`) uppercase ranges, which
map to the code point 32 higher; identity on every other character. -/
def jsToLower (c : Char) : Char :=
  if 65 ≤ c.toNat ∧ c.toNat ≤ 90 then Char.ofNat (c.toNat + 32)
  else if 192 ≤ c.toNat ∧ c.toNat ≤ 222 ∧ c.toNat ≠ 215 then Char.ofNat (c.toNat + 32)
  else c

/-- Model of Unicode NFD decomposition (`String.prototype.normalize("NFD")`)
on a finite representative table of Latin-1 accented lowercase letters: each
decomposes to its base letter followed by a combining mark in `U+0300`-`U+036F`.
Every character outside the table (in particular all of ASCII) decomposes to
itself. -/
def nfdChar (c : Char) : List Char :=
  if c.toNat = 224 then ['a', Char.ofNat 768]
  else if c.toNat = 225 then ['a', Char.ofNat 769]
  else if c.toNat = 228 then ['a', Char.ofNat 776]
  else if c.toNat = 231 then ['c', Char.ofNat 807]
  else if c.toNat = 232 then ['e', Char.ofNat 768]
  else if c.toNat = 233 then ['e', Char.ofNat 769]
  else if c.toNat = 237 then ['i', Char.ofNat 769]
  else if c.toNat = 241 then ['n', Char.ofNat 771]
  else if c.toNat = 243 then ['o', Char.ofNat 769]
  else if c.toNat = 246 then ['o', Char.ofNat 776]
  else if c.toNat = 250 then ['u', Char.ofNat 769]
  else if c.toNat = 251 then ['u', Char.ofNat 770]
  else if c.toNat = 252 then ['u', Char.ofNat 776]
  else [c]

/-- NFD decomposition of a character list. -/
def nfdExpand (cs : List Char) : List Char :=
  cs.foldr (fun c acc => nfdChar c ++ acc) []

/-- The combining-mark deletion step of `slugify`: removes the Unicode
combining diacritical marks `U+0300`-`U+036F`. -/
def stripCombiningMarks (cs : List Char) : List Char :=
  cs.filter (fun c => !(768 ≤ c.toNat && c.toNat ≤ 879))

/-- Pointwise step of the regex replacement `[^a-z0-9]+` → `-`: every
character outside `[a-z0-9]` becomes a hyphen. -/
def toHyphenChar (c : Char) : Char :=
  if isAlnumLower c then c else '-'

/-- Collapses every run of two or more consecutive hyphens to a single
hyphen, leaving all other characters in place.  This is the semantics of the
global regex replacement `--+` → `-`, and (after `toHyphenChar`) of replacing
each run matched by `[^a-z0-9]+` with a single hyphen. -/
def collapseRuns : List Char → List Char
  | [] => []
  | [c] => [c]
  | a :: b :: t =>
    if a == '-' && b == '-' then collapseRuns (b :: t)
    else a :: collapseRuns (b :: t)

/-- True when the list never has two adjacent hyphens. -/
def noAdjHyphens : List Char → Bool
  | [] => true
  | [_] => true
  | a :: b :: t => !(a == '-' && b == '-') && noAdjHyphens (b :: t)

/-- Removes the trailing run of hyphens (the `-+$` half of `slugify`'s
trimming regex `^-+|-+$`). -/
def trimTrailingHyphens : List Char → List Char
  | [] => []
  | c :: cs =>
    match trimTrailingHyphens cs with
    | [] => if c == '-' then [] else [c]
    | r => c :: r

/-- The global trimming regex `^-+|-+$` of `slugify`: removes the leading
and the trailing run of hyphens. -/
def trimHyphens (cs : List Char) : List Char :=
  trimTrailingHyphens (cs.dropWhile (fun c => c == '-'))

/-- `slugify` on character lists: lowercase, NFD-decompose, delete combining
marks, replace every run of non-`[a-z0-9]` characters with one hyphen, then
trim edge hyphens. -/
def slugifyL (cs : List Char) : List Char :=
  trimHyphens (collapseRuns ((stripCombiningMarks (nfdExpand (cs.map jsToLower))).map toHyphenChar))

/-- The `slugify` function of the manifest generator. -/
def slugify (s : String) : String :=
  String.mk (slugifyL s.data)

/-- Case-insensitive `.svg` suffix test, as in
`svgFile.toLowerCase().endsWith(".svg")`. -/
def isSvgFileName (s : String) : Bool :=
  ['.', 's', 'v', 'g'].isSuffixOf (s.data.map jsToLower)

/-- The case-insensitive extension strip `\.svg$` (replace with
the empty string) of `parseFileDetails`. -/
def stripSvgExtL (cs : List Char) : List Char :=
  if ['.', 's', 'v', 'g'].isSuffixOf (cs.map jsToLower) then cs.take (cs.length - 4)
  else cs

/-- Numeric value of a digit run, as produced by `Number` on a digit string. -/
def digitsVal (ds : List Char) : Nat :=
  ds.foldl (fun a c => 10 * a + (c.toNat - 48)) 0

/-- Attempts to match the size-token regex `_` `[0-9]+` `_` at the head of the
list: an underscore, a maximal nonempty digit run, then another underscore.
Returns the numeric value of the run. -/
def sizeTokenAt : List Char → Option Nat
  | [] => none
  | c :: rest =>
    if c == '_' then
      let ds := rest.takeWhile (fun d => d.isDigit)
      if ds.isEmpty then none
      else
        match rest.dropWhile (fun d => d.isDigit) with
        | '_' :: _ => some (digitsVal ds)
        | _ => none
    else none

/-- Leftmost match of the size-token regex over the stem, the semantics of
`withoutExtension.match` with pattern `_([0-9]+)_`. -/
def findSizeToken : List Char → Option Nat
  | [] => none
  | c :: cs =>
    match sizeTokenAt (c :: cs) with
    | some n => some n
    | none => findSizeToken cs

/-- The closed set of style keywords recognised by `parseFileDetails`. -/
def styleKeywords : List (List Char) :=
  ["regular".data, "filled".data, "light".data, "bold".data, "outline".data]

/-- Case-insensitive anchored match of `_(regular|filled|light|bold|outline)$`
against the stem; the captured keyword is returned lowercased. -/
def styleTokenOf (stem : List Char) : Option String :=
  match styleKeywords.find? (fun kw => ('_' :: kw).isSuffixOf (stem.map jsToLower)) with
  | some kw => some (String.mk kw)
  | none => none

/-- Result type of `parseFileDetails`. -/
structure FileDetails where
  size : Option Nat
  style : Option String
  baseName : String
deriving DecidableEq

/-- The `parseFileDetails` function of the manifest generator. -/
def parseFileDetails (fileName : String) : FileDetails :=
  let stem := stripSvgExtL fileName.data
  { size := findSizeToken stem
    style := styleTokenOf stem
    baseName := String.mk stem }

/-- JavaScript `encodeURIComponent` unreserved set: ASCII alphanumerics and
`-` `_` `.` `!` `~` `*` `(` `)` and the apostrophe (code point 39). -/
def isUriUnreservedChar (c : Char) : Bool :=
  (65 ≤ c.toNat && c.toNat ≤ 90) || (97 ≤ c.toNat && c.toNat ≤ 122) ||
  (48 ≤ c.toNat && c.toNat ≤ 57) ||
  c.toNat == 45 || c.toNat == 95 || c.toNat == 46 || c.toNat == 33 ||
  c.toNat == 126 || c.toNat == 42 || c.toNat == 39 || c.toNat == 40 || c.toNat == 41

/-- Uppercase hexadecimal digit. -/
def hexDigitChar (n : Nat) : Char :=
  if n < 10 then Char.ofNat (48 + n) else Char.ofNat (55 + n)

/-- UTF-8 byte sequence of a character's code point. -/
def utf8ByteList (c : Char) : List Nat :=
  let n := c.toNat
  if n < 128 then [n]
  else if n < 2048 then [192 + n / 64, 128 + n % 64]
  else if n < 65536 then [224 + n / 4096, 128 + (n / 64) % 64, 128 + n % 64]
  else [240 + n / 262144, 128 + (n / 4096) % 64, 128 + (n / 64) % 64, 128 + n % 64]

/-- Percent-encoding of one byte. -/
def percentEncodeByte (b : Nat) : List Char :=
  ['%', hexDigitChar (b / 16), hexDigitChar (b % 16)]

/-- Model of JavaScript `encodeURIComponent`: unreserved characters are kept,
every other character is written as the percent-encoded bytes of its UTF-8
encoding. -/
def encodeURIComponent (s : String) : String :=
  String.mk (s.data.foldr
    (fun c acc =>
      (if isUriUnreservedChar c then [c]
       else (utf8ByteList c).foldr (fun b a => percentEncodeByte b ++ a) []) ++ acc)
    [])

/-- Removes a trailing run of path separators, the replacement regex
`(slash)+$` → empty string applied to `ICON_CDN_BASE_URL`. -/
def stripTrailingSlashesL (cs : List Char) : List Char :=
  ((cs.reverse.dropWhile (fun c => c == '/')).reverse)

/-- The module-level `ICON_CDN_BASE_URL` constant: when the environment value
is set and truthy (nonempty), its value with trailing slashes stripped;
otherwise `undefined` (modelled as `none`).  A set-but-empty value is falsy
in JavaScript and yields `none`. -/
def iconCdnBaseUrl (envVal : Option String) : Option String :=
  match envVal with
  | none => none
  | some s => if s = "" then none else some (String.mk (stripTrailingSlashesL s.data))

/-- Per-record `cdnUrl` computation: when the (possibly empty, hence falsy)
base is truthy, base `/` encoded category `/SVG/` encoded filename; else
`null`. -/
def recordCdnUrl (baseUrl : Option String) (catName fileName : String) : Option String :=
  match baseUrl with
  | none => none
  | some b =>
    if b = "" then none
    else some (b ++ "/" ++ encodeURIComponent catName ++ "/SVG/" ++ encodeURIComponent fileName)

/-- The `IconMetadata` sidecar-descriptor shape. -/
structure IconMetadata where
  name : Option String
  size : Option (List Nat)
  style : Option (List String)
  keyword : Option String
  description : Option String
  metaphor : Option (List String)
deriving DecidableEq

/-- The empty metadata object used when `readJsonFile` returns `null`. -/
def emptyMetadata : IconMetadata :=
  { name := none, size := none, style := none, keyword := none,
    description := none, metaphor := none }

/-- One `IconRecord` of the manifest. -/
structure IconRecord where
  id : String
  category : String
  categorySlug : String
  name : String
  description : Option String
  keyword : Option String
  tags : List String
  size : Option Nat
  style : Option String
  file : String
  relativePath : String
  cdnUrl : Option String
deriving DecidableEq

/-- Assembly of a single catalog record inside `generateManifest`'s inner
loop, for one qualifying file of one category. -/
def mkIconRecord (baseUrl : Option String) (catName : String) (metadata : IconMetadata)
    (svgFile : String) : IconRecord :=
  let fd := parseFileDetails svgFile
  { id := String.mk (collapseRuns ((slugify catName).data ++ '-' :: fd.baseName.data))
    category := catName
    categorySlug := slugify catName
    name := metadata.name.getD catName
    description := metadata.description
    keyword := metadata.keyword
    tags := metadata.metaphor.getD []
    size := fd.size
    style := fd.style
    file := svgFile
    relativePath := "assets/" ++ catName ++ "/SVG/" ++ svgFile
    cdnUrl := recordCdnUrl baseUrl catName svgFile }

/-- Filesystem view of one top-level entry of the assets root, as observed by
`generateManifest`: the entry name, whether the entry is a directory, the
result of `stat` on its `SVG` subfolder (`none` when `stat` throws, otherwise
`isDirectory()`), the result of `readJsonFile` on its `metadata.json`
(`none` on any read or parse failure), and the file listing of the `SVG`
subfolder. -/
structure CategoryFS where
  catName : String
  catIsDir : Bool
  svgStat : Option Bool
  catMeta : Option IconMetadata
  catFiles : List String
deriving DecidableEq

/-- The records contributed by one top-level entry: nothing unless the entry
is a directory whose `SVG` subfolder stats as a directory; otherwise one
record per file with a case-insensitive `.svg` suffix, built with the
descriptor metadata defaulted to the empty object. -/
def recordsForCategory (baseUrl : Option String) (cat : CategoryFS) : List IconRecord :=
  if cat.catIsDir = false then []
  else if cat.svgStat = some true then
    (cat.catFiles.filter isSvgFileName).map
      (mkIconRecord baseUrl cat.catName (cat.catMeta.getD emptyMetadata))
  else []

/-- The `generateManifest` catalog walk: concatenation, in directory
enumeration order, of each entry's records. -/
def generateManifest (baseUrl : Option String) (entries : List CategoryFS) : List IconRecord :=
  entries.foldr (fun e acc => recordsForCategory baseUrl e ++ acc) []

/-- One observable step of the manifest write.  `generateManifest` persists
the serialized manifest with a single direct `writeFile` on the output path;
at the filesystem level that call opens the file for writing (truncating it)
and then writes the full content, so it is modelled as a truncation event
followed by an append of the complete serialized content. -/
inductive WriteEvent where
  | truncate : WriteEvent
  | append : String → WriteEvent
deriving DecidableEq

/-- Effect of one write event on the file content. -/
def applyWriteEvent (cur : String) : WriteEvent → String
  | WriteEvent.truncate => ""
  | WriteEvent.append s => cur ++ s

/-- Event trace of `writeFile(OUTPUT_FILE, content)`: truncate the output
path, then append the whole content.  No temporary path or rename event is
involved. -/
def writeFileEvents (content : String) : List WriteEvent :=
  [WriteEvent.truncate, WriteEvent.append content]

/-- Content of the output path that an external reader observes after the
first `k` events of a write trace, starting from the prior content. -/
def observedAfter (prior : String) (events : List WriteEvent) (k : Nat) : String :=
  (events.take k).foldl applyWriteEvent prior

/-- The uploader's `UploadConfig` (the `prefix` field is called `keyPrefix`
here because `prefix` is reserved in Lean). -/
structure UploadConfig where
  accountId : String
  accessKeyId : String
  secretAccessKey : String
  bucketName : String
  keyPrefix : Option String
deriving DecidableEq

/-- The five environment variables read by the uploader's `getConfig`;
`none` models an unset variable. -/
structure UploadEnvVars where
  R2_ACCOUNT_ID : Option String
  R2_ACCESS_KEY_ID : Option String
  R2_SECRET_ACCESS_KEY : Option String
  R2_BUCKET_NAME : Option String
  R2_PREFIX : Option String
deriving DecidableEq

/-- JavaScript falsiness of an environment value: unset, or set to the empty
string. -/
def isBlank (v : Option String) : Bool :=
  match v with
  | none => true
  | some s => s == ""

/-- The `missing` list accumulated by `getConfig`, in the fixed order in
which the four required variables are tested. -/
def missingVars (env : UploadEnvVars) : List String :=
  (if isBlank env.R2_ACCOUNT_ID then ["R2_ACCOUNT_ID"] else []) ++
  (if isBlank env.R2_ACCESS_KEY_ID then ["R2_ACCESS_KEY_ID"] else []) ++
  (if isBlank env.R2_SECRET_ACCESS_KEY then ["R2_SECRET_ACCESS_KEY"] else []) ++
  (if isBlank env.R2_BUCKET_NAME then ["R2_BUCKET_NAME"] else [])

/-- Strips leading and trailing slashes, the regex `^(slash)+|(slash)+$`
applied to `R2_PREFIX`. -/
def stripEdgeSlashesL (cs : List Char) : List Char :=
  ((cs.dropWhile (fun c => c == '/')).reverse.dropWhile (fun c => c == '/')).reverse

/-- The uploader's `getConfig`: throws (modelled as `Except.error`) a single
message listing every missing required variable, otherwise returns the
configuration record. -/
def getConfig (env : UploadEnvVars) : Except String UploadConfig :=
  let missing := missingVars env
  if missing.isEmpty then
    Except.ok
      { accountId := env.R2_ACCOUNT_ID.getD ""
        accessKeyId := env.R2_ACCESS_KEY_ID.getD ""
        secretAccessKey := env.R2_SECRET_ACCESS_KEY.getD ""
        bucketName := env.R2_BUCKET_NAME.getD ""
        keyPrefix := env.R2_PREFIX.map (fun s => String.mk (stripEdgeSlashesL s.data)) }
  else
    Except.error ("Missing required environment variables: " ++ String.intercalate ", " missing)

/-- The retry loop of the batched `uploadFile`: attempts are numbered from 1;
a successful send returns `true`, a failure on the final attempt returns
`false`, any earlier failure backs off and retries.  `net a` tells whether
the send on attempt `a` succeeds. -/
def uploadTries (net : Nat → Bool) (attempt retries : Nat) : Bool :=
  if retries < attempt then false
  else if net attempt then true
  else if attempt = retries then false
  else uploadTries net (attempt + 1) retries
termination_by retries + 1 - attempt
decreasing_by omega

/-- Resolved value of `uploadFile`'s retry loop with the default 5 retries.
The loop is reached only after the file's bytes have been read successfully;
it never throws, so its value is a plain boolean. -/
def uploadOutcome (net : Nat → Bool) : Bool :=
  uploadTries net 1 5

/-- Per-file behaviour of the environment as `uploadFile` observes it:
whether `readFile` on the asset's path succeeds, and whether the send on a
given attempt number succeeds. -/
structure FileBehavior where
  readOk : Bool
  sendOk : Nat → Bool

/-- The batched `uploadFile` as a whole: the `await readFile` sits outside
the try/retry loop, so a failed read is an uncaught rejection of the call
(`Except.error`), while send failures are absorbed by the retry loop into
the resolved boolean. -/
def uploadFileRun (b : FileBehavior) : Except Unit Bool :=
  if b.readOk then Except.ok (uploadTries b.sendOk 1 5)
  else Except.error ()

/-- `Promise.all` over the per-file promises of one batch: resolves with the
list of values when every promise resolves, rejects when any promise
rejects. -/
def promiseAll : List (Except Unit α) → Except Unit (List α)
  | [] => Except.ok []
  | Except.error _ :: _ => Except.error ()
  | Except.ok a :: rest =>
    match promiseAll rest with
    | Except.error _ => Except.error ()
    | Except.ok as => Except.ok (a :: as)

/-- The tallying step of `uploadBatch` on an already-resolved results array:
the number of `true` results and the remaining (failed) count. -/
def tallyResults (results : List Bool) : Nat × Nat :=
  ((results.filter (fun r => r)).length,
   results.length - (results.filter (fun r => r)).length)

/-- The batched `uploadBatch`: awaits all of the batch's uploads at once; a
rejection of any one of them rejects the batch before any counts are
produced, otherwise the resolved booleans are tallied. -/
def uploadBatchRun (behav : α → FileBehavior) (files : List α) : Except Unit (Nat × Nat) :=
  match promiseAll (files.map (fun f => uploadFileRun (behav f))) with
  | Except.error _ => Except.error ()
  | Except.ok results => Except.ok (tallyResults results)

/-- The `BATCH_SIZE = 50` partition of the file list built by `main`'s
slicing loop. -/
def chunkBatches : List α → List (List α)
  | [] => []
  | x :: xs => (x :: xs).take 50 :: chunkBatches ((x :: xs).drop 50)
termination_by l => l.length
decreasing_by
  simp only [List.length_drop, List.length_cons]
  omega

/-- Accumulation of per-batch counts into the running totals. -/
def addCounts (acc r : Nat × Nat) : Nat × Nat :=
  (acc.1 + r.1, acc.2 + r.2)

/-- The uploader `main` loop over batches: totals accumulate batch by
batch; an uncaught rejection from a batch rejects `main`, whose catch
handler exits the process with an error, before any later batch is
attempted. -/
def runBatchesE (behav : α → FileBehavior) :
    List (List α) → Nat × Nat → Except Unit (Nat × Nat)
  | [], acc => Except.ok acc
  | b :: bs, acc =>
    match uploadBatchRun behav b with
    | Except.error _ => Except.error ()
    | Except.ok r => runBatchesE behav bs (addCounts acc r)

/-- The uploader `main`: partitions the discovered files into batches of 50
and runs the batches sequentially. -/
def runUploadPipeline (behav : α → FileBehavior) (files : List α) :
    Except Unit (Nat × Nat) :=
  runBatchesE behav (chunkBatches files) (0, 0)

/-- Environment behaviour in which every file reads and sends
successfully. -/
def allOkBehavior (_ : String) : FileBehavior :=
  { readOk := true, sendOk := fun _ => true }

/-- Environment behaviour in which the read of `bad.svg` fails while every
other file reads and sends successfully. -/
def readFailureBehavior (f : String) : FileBehavior :=
  if f = "bad.svg" then { readOk := false, sendOk := fun _ => true }
  else { readOk := true, sendOk := fun _ => true }

/-- Descriptor and filesystem fixture: the category of the end-to-end
example. -/
def accessTimeMeta : IconMetadata :=
  { name := some "Access Time", size := none, style := none,
    keyword := some "fluent-icon", description := none,
    metaphor := some ["number", "24", "Circle"] }

/-- Root entry fixture for the end-to-end example. -/
def accessTimeCategory : CategoryFS :=
  { catName := "Access Time", catIsDir := true, svgStat := some true,
    catMeta := some accessTimeMeta, catFiles := ["access_time_20_filled.svg"] }

/-- A category whose descriptor read failed, with one qualifying and two
non-qualifying files. -/
def shapesCategory : CategoryFS :=
  { catName := "Shapes", catIsDir := true, svgStat := some true,
    catMeta := none, catFiles := ["circle.svg", "notes.txt", "square.SVG"] }

/-- A category directory whose `SVG` subfolder is missing (`stat` throws). -/
def noSvgCategory : CategoryFS :=
  { catName := "Broken", catIsDir := true, svgStat := none,
    catMeta := none, catFiles := [] }

/-- Uploader environment with the access key unset and the secret set to the
empty string. -/
def envMissingTwo : UploadEnvVars :=
  { R2_ACCOUNT_ID := some "acct", R2_ACCESS_KEY_ID := none,
    R2_SECRET_ACCESS_KEY := some "", R2_BUCKET_NAME := some "icons",
    R2_PREFIX := none }

/-- Uploader environment in which all four required variables are set, but
the bucket name is set to the empty string. -/
def envEmptyBucket : UploadEnvVars :=
  { R2_ACCOUNT_ID := some "acct", R2_ACCESS_KEY_ID := some "key",
    R2_SECRET_ACCESS_KEY := some "secret", R2_BUCKET_NAME := some "",
    R2_PREFIX := none }

/-- Whether an `Except` result is a success. -/
def exceptIsOk (e : Except ε α) : Bool :=
  match e with
  | Except.ok _ => true
  | Except.error _ => false

/-- The error message of a failed `Except` result, if any. -/
def exceptErrorMsg (e : Except String α) : Option String :=
  match e with
  | Except.error s => some s
  | Except.ok _ => none

/-- The characters entering the replacement step of `slugify`: the input
after lowercasing, NFD decomposition and combining-mark removal. -/
def preSlugChars (s : String) : List Char :=
  stripCombiningMarks (nfdExpand (s.data.map jsToLower))

/-- Characters allowed in a normalized slug: `[a-z0-9]` or a hyphen. -/
def goodSlugChar (c : Char) : Bool :=
  isAlnumLower c || c == '-'

/-- Well-formedness of a slug string: only lowercase ASCII alphanumerics and
hyphens, no two adjacent hyphens, and no leading or trailing hyphen. -/
def isGoodSlug (s : String) : Bool :=
  s.data.all goodSlugChar && noAdjHyphens s.data &&
  !(s.data.head? == some '-') && !(s.data.getLast? == some '-')

/-- Propositional form of slug well-formedness, on character lists. -/
def GoodSlugL (l : List Char) : Prop :=
  (∀ c ∈ l, goodSlugChar c = true) ∧ noAdjHyphens l = true ∧
  (∀ x, l.head? = some x → x ≠ '-') ∧ (∀ x, l.getLast? = some x → x ≠ '-')

theorem collapseRuns_head? (l : List Char) : (collapseRuns l).head? = l.head? := by
  induction l with
  | nil => rfl
  | cons a t ih =>
    cases t with
    | nil => rfl
    | cons b u =>
      cases hab : (a == '-' && b == '-') with
      | true =>
        obtain ⟨ha, hb⟩ : a = '-' ∧ b = '-' := by
          simpa [Bool.and_eq_true, beq_iff_eq] using hab
        subst ha
        subst hb
        simp [collapseRuns, hab, ih]
      | false => simp [collapseRuns, hab]

theorem collapseRuns_getLast? (l : List Char) : (collapseRuns l).getLast? = l.getLast? := by
  induction l with
  | nil => rfl
  | cons a t ih =>
    cases t with
    | nil => rfl
    | cons b u =>
      cases hab : (a == '-' && b == '-') with
      | true => simp [collapseRuns, hab, ih, List.getLast?_cons_cons]
      | false =>
        have hh := collapseRuns_head? (b :: u)
        cases hc : collapseRuns (b :: u) with
        | nil => rw [hc] at hh; simp at hh
        | cons y ys =>
          have ihn : (y :: ys).getLast? = (b :: u).getLast? := hc ▸ ih
          simp [collapseRuns, hab, hc, List.getLast?_cons_cons, ihn]

theorem mem_of_mem_collapseRuns {x : Char} : ∀ {l : List Char}, x ∈ collapseRuns l → x ∈ l := by
  intro l
  induction l with
  | nil => simp [collapseRuns]
  | cons a t ih =>
    cases t with
    | nil => simp [collapseRuns]
    | cons b u =>
      cases hab : (a == '-' && b == '-') with
      | true =>
        intro hx
        simp only [collapseRuns, hab, if_true] at hx
        exact List.mem_cons_of_mem a (ih hx)
      | false =>
        intro hx
        simp only [collapseRuns, hab, Bool.false_eq_true, if_false] at hx
        rcases List.mem_cons.mp hx with h | h
        · exact h ▸ List.mem_cons_self _ _
        · exact List.mem_cons_of_mem a (ih h)

theorem noAdjHyphens_collapseRuns (l : List Char) : noAdjHyphens (collapseRuns l) = true := by
  induction l with
  | nil => rfl
  | cons a t ih =>
    cases t with
    | nil => rfl
    | cons b u =>
      cases hab : (a == '-' && b == '-') with
      | true => simpa [collapseRuns, hab] using ih
      | false =>
        have hh := collapseRuns_head? (b :: u)
        cases hc : collapseRuns (b :: u) with
        | nil => simp [collapseRuns, hab, hc, noAdjHyphens]
        | cons y ys =>
          have hy : y = b := by rw [hc] at hh; simpa using hh
          have ihn : noAdjHyphens (b :: ys) = true := by
            rw [← hy]
            exact hc ▸ ih
          simp [collapseRuns, hab, hc, noAdjHyphens, hy, ihn]

theorem noAdjHyphens_tail {c : Char} {l : List Char} (h : noAdjHyphens (c :: l) = true) :
    noAdjHyphens l = true := by
  cases l with
  | nil => rfl
  | cons b u =>
    have h' : (!(c == '-' && b == '-')) = true ∧ noAdjHyphens (b :: u) = true := by
      simpa [noAdjHyphens, Bool.and_eq_true] using h
    exact h'.2

theorem collapseRuns_eq_self : ∀ {l : List Char}, noAdjHyphens l = true → collapseRuns l = l := by
  intro l
  induction l with
  | nil => intro _; rfl
  | cons a t ih =>
    cases t with
    | nil => intro _; rfl
    | cons b u =>
      intro h
      have h' : (!(a == '-' && b == '-')) = true ∧ noAdjHyphens (b :: u) = true := by
        simpa [noAdjHyphens, Bool.and_eq_true] using h
      have hab : (a == '-' && b == '-') = false := by
        have hn := h'.1
        cases hx : (a == '-' && b == '-') with
        | false => rfl
        | true => rw [hx] at hn; simp at hn
      simp [collapseRuns, hab, ih h'.2]

theorem noAdjHyphens_append_left : ∀ {l t : List Char},
    noAdjHyphens (l ++ t) = true → noAdjHyphens l = true := by
  intro l
  induction l with
  | nil => intro t _; rfl
  | cons a l' ih =>
    intro t h
    cases l' with
    | nil => rfl
    | cons b u =>
      have h1 : (!(a == '-' && b == '-')) = true ∧ noAdjHyphens (b :: u ++ t) = true := by
        simpa [noAdjHyphens, Bool.and_eq_true, List.cons_append] using h
      have h2 : noAdjHyphens (b :: u) = true := ih h1.2
      simp only [noAdjHyphens, Bool.and_eq_true]
      exact ⟨h1.1, h2⟩

theorem noAdjHyphens_dropWhile (p : Char → Bool) {l : List Char} (h : noAdjHyphens l = true) :
    noAdjHyphens (l.dropWhile p) = true := by
  induction l with
  | nil => rfl
  | cons a t ih =>
    cases hp : p a with
    | true => simpa [List.dropWhile_cons, hp] using ih (noAdjHyphens_tail h)
    | false => simpa [List.dropWhile_cons, hp] using h

theorem head?_dropWhile_hyphen {l : List Char} {x : Char}
    (h : (l.dropWhile (fun c => c == '-')).head? = some x) : x ≠ '-' := by
  induction l with
  | nil => simp at h
  | cons a t ih =>
    rw [List.dropWhile_cons] at h
    by_cases hp : (a == '-') = true
    · rw [if_pos hp] at h; exact ih h
    · rw [if_neg hp] at h
      have hax : a = x := by simpa using h
      subst hax
      simpa [beq_iff_eq] using hp

theorem mem_of_mem_dropWhile (p : Char → Bool) {x : Char} {l : List Char}
    (h : x ∈ l.dropWhile p) : x ∈ l := by
  induction l with
  | nil => simp at h
  | cons a t ih =>
    rw [List.dropWhile_cons] at h
    by_cases hp : p a = true
    · rw [if_pos hp] at h; exact List.mem_cons_of_mem a (ih h)
    · rw [if_neg hp] at h; exact h

theorem trimTrailingHyphens_append (l : List Char) : ∃ t, trimTrailingHyphens l ++ t = l := by
  induction l with
  | nil => exact ⟨[], rfl⟩
  | cons c cs ih =>
    obtain ⟨t, ht⟩ := ih
    cases hr : trimTrailingHyphens cs with
    | nil =>
      cases hc : (c == '-') with
      | true => exact ⟨c :: cs, by simp [trimTrailingHyphens, hr, hc]⟩
      | false => exact ⟨cs, by simp [trimTrailingHyphens, hr, hc]⟩
    | cons y ys =>
      refine ⟨t, ?_⟩
      rw [hr] at ht
      simp [trimTrailingHyphens, hr, List.cons_append, ht]

theorem mem_of_mem_trimTrailingHyphens {x : Char} {l : List Char}
    (h : x ∈ trimTrailingHyphens l) : x ∈ l := by
  obtain ⟨t, ht⟩ := trimTrailingHyphens_append l
  rw [← ht]
  exact List.mem_append_left t h

theorem trimTrailingHyphens_getLast? : ∀ {l : List Char} {x : Char},
    (trimTrailingHyphens l).getLast? = some x → x ≠ '-' := by
  intro l
  induction l with
  | nil => intro x h; simp [trimTrailingHyphens] at h
  | cons c cs ih =>
    intro x h
    cases hr : trimTrailingHyphens cs with
    | nil =>
      simp only [trimTrailingHyphens, hr] at h
      cases hc : (c == '-') with
      | true => rw [hc] at h; simp at h
      | false =>
        rw [hc] at h
        have hcx : c = x := by simpa using h
        subst hcx
        simpa [beq_eq_false_iff_ne] using hc
    | cons y ys =>
      simp only [trimTrailingHyphens, hr] at h
      have h' : (y :: ys).getLast? = some x := by
        simpa [List.getLast?_cons_cons] using h
      exact ih (hr ▸ h')

theorem trimTrailingHyphens_head? : ∀ {l : List Char} {x : Char},
    (trimTrailingHyphens l).head? = some x → l.head? = some x := by
  intro l
  induction l with
  | nil => intro x h; simp [trimTrailingHyphens] at h
  | cons c cs _ =>
    intro x h
    cases hr : trimTrailingHyphens cs with
    | nil =>
      simp only [trimTrailingHyphens, hr] at h
      cases hc : (c == '-') with
      | true => rw [hc] at h; simp at h
      | false =>
        rw [hc] at h
        have hcx : c = x := by simpa using h
        simp [hcx]
    | cons y ys =>
      simp only [trimTrailingHyphens, hr] at h
      have hcx : c = x := by simpa using h
      simp [hcx]

theorem trimTrailingHyphens_eq_self : ∀ {l : List Char},
    (∀ x, l.getLast? = some x → x ≠ '-') → trimTrailingHyphens l = l := by
  intro l
  induction l with
  | nil => intro _; rfl
  | cons c cs ih =>
    intro h
    cases cs with
    | nil =>
      have hc : c ≠ '-' := h c (by simp)
      have hcb : (c == '-') = false := by simpa [beq_eq_false_iff_ne] using hc
      simp [trimTrailingHyphens, hcb]
    | cons d ds =>
      have h' : ∀ x, (d :: ds).getLast? = some x → x ≠ '-' := by
        intro x hx
        exact h x (by simpa [List.getLast?_cons_cons] using hx)
      have ihr : trimTrailingHyphens (d :: ds) = d :: ds := ih h'
      have step : trimTrailingHyphens (c :: d :: ds) =
          match trimTrailingHyphens (d :: ds) with
          | [] => if c == '-' then [] else [c]
          | r => c :: r := rfl
      rw [step, ihr]

theorem dropWhile_hyphen_eq_self {l : List Char} (h : ∀ x, l.head? = some x → x ≠ '-') :
    l.dropWhile (fun c => c == '-') = l := by
  cases l with
  | nil => rfl
  | cons a t =>
    have ha : a ≠ '-' := h a rfl
    have hab : (a == '-') = false := by simpa [beq_eq_false_iff_ne] using ha
    simp [List.dropWhile_cons, hab]

theorem goodSlugChar_cases {c : Char} (h : goodSlugChar c = true) :
    (97 ≤ c.toNat ∧ c.toNat ≤ 122) ∨ (48 ≤ c.toNat ∧ c.toNat ≤ 57) ∨ c.toNat = 45 := by
  have h' : ((97 ≤ c.toNat ∧ c.toNat ≤ 122) ∨ (48 ≤ c.toNat ∧ c.toNat ≤ 57)) ∨ c = '-' := by
    simpa [goodSlugChar, isAlnumLower, Bool.or_eq_true, Bool.and_eq_true,
      decide_eq_true_eq, beq_iff_eq] using h
  rcases h' with (h1 | h2) | h3
  · exact Or.inl h1
  · exact Or.inr (Or.inl h2)
  · subst h3
    exact Or.inr (Or.inr rfl)

theorem goodSlugChar_toHyphenChar (c : Char) : goodSlugChar (toHyphenChar c) = true := by
  unfold toHyphenChar
  cases hc : isAlnumLower c with
  | true => simp [goodSlugChar, hc]
  | false => simp [goodSlugChar]

theorem jsToLower_eq_self_of_good {c : Char} (h : goodSlugChar c = true) : jsToLower c = c := by
  have hn := goodSlugChar_cases h
  unfold jsToLower
  split_ifs with h1 h2
  · exfalso; omega
  · exfalso; omega
  · rfl

theorem nfdChar_eq_self_of_good {c : Char} (h : goodSlugChar c = true) : nfdChar c = [c] := by
  have hn := goodSlugChar_cases h
  have e1 : c.toNat ≠ 224 := by omega
  have e2 : c.toNat ≠ 225 := by omega
  have e3 : c.toNat ≠ 228 := by omega
  have e4 : c.toNat ≠ 231 := by omega
  have e5 : c.toNat ≠ 232 := by omega
  have e6 : c.toNat ≠ 233 := by omega
  have e7 : c.toNat ≠ 237 := by omega
  have e8 : c.toNat ≠ 241 := by omega
  have e9 : c.toNat ≠ 243 := by omega
  have e10 : c.toNat ≠ 246 := by omega
  have e11 : c.toNat ≠ 250 := by omega
  have e12 : c.toNat ≠ 251 := by omega
  have e13 : c.toNat ≠ 252 := by omega
  unfold nfdChar
  rw [if_neg e1, if_neg e2, if_neg e3, if_neg e4, if_neg e5, if_neg e6, if_neg e7,
    if_neg e8, if_neg e9, if_neg e10, if_neg e11, if_neg e12, if_neg e13]

theorem map_eq_self_of_forall {f : Char → Char} : ∀ {l : List Char},
    (∀ c ∈ l, f c = c) → l.map f = l := by
  intro l
  induction l with
  | nil => intro _; rfl
  | cons a t ih =>
    intro h
    rw [List.map_cons, h a (List.mem_cons_self a t),
      ih (fun c hc => h c (List.mem_cons_of_mem a hc))]

theorem nfdExpand_eq_self : ∀ {l : List Char},
    (∀ c ∈ l, goodSlugChar c = true) → nfdExpand l = l := by
  intro l
  induction l with
  | nil => intro _; rfl
  | cons a t ih =>
    intro h
    show nfdChar a ++ nfdExpand t = a :: t
    rw [nfdChar_eq_self_of_good (h a (List.mem_cons_self a t)),
      ih (fun c hc => h c (List.mem_cons_of_mem a hc))]
    rfl

theorem stripCombiningMarks_eq_self {l : List Char}
    (h : ∀ c ∈ l, goodSlugChar c = true) : stripCombiningMarks l = l := by
  unfold stripCombiningMarks
  rw [List.filter_eq_self]
  intro a ha
  have hn := goodSlugChar_cases (h a ha)
  have h768 : decide (768 ≤ a.toNat) = false := decide_eq_false_iff_not.mpr (by omega)
  simp [h768]

theorem toHyphenChar_eq_self_of_good {c : Char} (h : goodSlugChar c = true) :
    toHyphenChar c = c := by
  have h' : isAlnumLower c = true ∨ (c == '-') = true := by
    simpa [goodSlugChar, Bool.or_eq_true] using h
  rcases h' with h1 | h2
  · simp [toHyphenChar, h1]
  · have hc : c = '-' := by simpa [beq_iff_eq] using h2
    subst hc
    decide

theorem slugifyL_good (cs : List Char) : GoodSlugL (slugifyL cs) := by
  unfold slugifyL trimHyphens
  refine ⟨?_, ?_, ?_, ?_⟩
  · intro c hc
    have h1 := mem_of_mem_trimTrailingHyphens hc
    have h2 := mem_of_mem_dropWhile _ h1
    have h3 := mem_of_mem_collapseRuns h2
    obtain ⟨y, _, hy⟩ := List.mem_map.mp h3
    rw [← hy]
    exact goodSlugChar_toHyphenChar y
  · obtain ⟨t, ht⟩ := trimTrailingHyphens_append
      ((collapseRuns ((stripCombiningMarks (nfdExpand (cs.map jsToLower))).map
        toHyphenChar)).dropWhile (fun c => c == '-'))
    have hdm := noAdjHyphens_dropWhile (fun c => c == '-')
      (noAdjHyphens_collapseRuns
        ((stripCombiningMarks (nfdExpand (cs.map jsToLower))).map toHyphenChar))
    exact noAdjHyphens_append_left (ht.symm ▸ hdm)
  · intro x hx
    exact head?_dropWhile_hyphen (trimTrailingHyphens_head? hx)
  · intro x hx
    exact trimTrailingHyphens_getLast? hx

theorem slugifyL_eq_self {l : List Char} (h : GoodSlugL l) : slugifyL l = l := by
  obtain ⟨hcls, hadj, hhd, hlast⟩ := h
  unfold slugifyL trimHyphens
  rw [map_eq_self_of_forall (fun c hc => jsToLower_eq_self_of_good (hcls c hc))]
  rw [nfdExpand_eq_self hcls]
  rw [stripCombiningMarks_eq_self hcls]
  rw [map_eq_self_of_forall (fun c hc => toHyphenChar_eq_self_of_good (hcls c hc))]
  rw [collapseRuns_eq_self hadj]
  rw [dropWhile_hyphen_eq_self hhd]
  exact trimTrailingHyphens_eq_self hlast

theorem isGoodSlug_of_goodSlugL {l : List Char} (h : GoodSlugL l) :
    isGoodSlug (String.mk l) = true := by
  obtain ⟨hcls, hadj, hhd, hlast⟩ := h
  have h1 : l.all goodSlugChar = true := List.all_eq_true.mpr hcls
  have h2 : (l.head? == some '-') = false := by
    rw [beq_eq_false_iff_ne]
    intro hcon
    exact hhd '-' hcon rfl
  have h3 : (l.getLast? == some '-') = false := by
    rw [beq_eq_false_iff_ne]
    intro hcon
    exact hlast '-' hcon rfl
  simp [isGoodSlug, h1, hadj, h2, h3]

theorem findSizeToken_none_iff : ∀ (cs : List Char),
    findSizeToken cs = none ↔ ∀ i, sizeTokenAt (cs.drop i) = none := by
  intro cs
  induction cs with
  | nil =>
    constructor
    · intro _ i
      simp [List.drop_nil, sizeTokenAt]
    · intro _
      rfl
  | cons c cs ih =>
    constructor
    · intro h i
      cases hs : sizeTokenAt (c :: cs) with
      | some n => simp [findSizeToken, hs] at h
      | none =>
        cases i with
        | zero => simpa using hs
        | succ j =>
          have h' : findSizeToken cs = none := by simpa [findSizeToken, hs] using h
          simpa using (ih.mp h') j
    · intro h
      have h0 : sizeTokenAt (c :: cs) = none := by simpa using h 0
      have h' : ∀ j, sizeTokenAt (cs.drop j) = none := fun j => by simpa using h (j + 1)
      simp [findSizeToken, h0, ih.mpr h']

theorem findSizeToken_some_iff : ∀ (cs : List Char) (n : Nat),
    findSizeToken cs = some n ↔
      ∃ i, sizeTokenAt (cs.drop i) = some n ∧
        ∀ j, j < i → sizeTokenAt (cs.drop j) = none := by
  intro cs
  induction cs with
  | nil =>
    intro n
    constructor
    · intro h
      simp [findSizeToken] at h
    · rintro ⟨i, hi, -⟩
      simp [List.drop_nil, sizeTokenAt] at hi
  | cons c cs ih =>
    intro n
    cases hs : sizeTokenAt (c :: cs) with
    | some m =>
      constructor
      · intro h
        have hnm : m = n := by simpa [findSizeToken, hs] using h
        refine ⟨0, by simpa [hnm] using hs, ?_⟩
        intro j hj
        omega
      · rintro ⟨i, hi, hmin⟩
        cases i with
        | zero =>
          have hin : sizeTokenAt (c :: cs) = some n := by simpa using hi
          rw [hs] at hin
          simpa [findSizeToken, hs] using hin
        | succ j =>
          have h0 : sizeTokenAt (c :: cs) = none := by simpa using hmin 0 (by omega)
          rw [h0] at hs
          cases hs
    | none =>
      have hred : findSizeToken (c :: cs) = findSizeToken cs := by
        simp [findSizeToken, hs]
      rw [hred, ih n]
      constructor
      · rintro ⟨i, hi, hmin⟩
        refine ⟨i + 1, by simpa using hi, ?_⟩
        intro j hj
        cases j with
        | zero => simpa using hs
        | succ k => simpa using hmin k (by omega)
      · rintro ⟨i, hi, hmin⟩
        cases i with
        | zero =>
          have : sizeTokenAt (c :: cs) = some n := by simpa using hi
          rw [this] at hs
          cases hs
        | succ k =>
          refine ⟨k, by simpa using hi, ?_⟩
          intro j hj
          simpa using hmin (j + 1) (by omega)

theorem generateManifest_append (baseUrl : Option String) : ∀ (l1 l2 : List CategoryFS),
    generateManifest baseUrl (l1 ++ l2) =
      generateManifest baseUrl l1 ++ generateManifest baseUrl l2 := by
  intro l1 l2
  induction l1 with
  | nil => rfl
  | cons e t ih =>
    show recordsForCategory baseUrl e ++ generateManifest baseUrl (t ++ l2) =
      (recordsForCategory baseUrl e ++ generateManifest baseUrl t) ++
        generateManifest baseUrl l2
    rw [ih, List.append_assoc]

theorem recordsForCategory_of_no_svgdir {baseUrl : Option String} {cat : CategoryFS}
    (h : cat.svgStat ≠ some true) : recordsForCategory baseUrl cat = [] := by
  unfold recordsForCategory
  by_cases hd : cat.catIsDir = false
  · rw [if_pos hd]
  · rw [if_neg hd, if_neg h]

theorem length_filter_map_self (ok : α → Bool) : ∀ (l : List α),
    ((l.map ok).filter (fun r => r)).length = (l.filter ok).length := by
  intro l
  induction l with
  | nil => rfl
  | cons a t ih =>
    cases h : ok a with
    | true => simp [List.map_cons, List.filter_cons, h, ih]
    | false => simp [List.map_cons, List.filter_cons, h, ih]

theorem length_filter_add_length_filter_not (ok : α → Bool) : ∀ (l : List α),
    (l.filter ok).length + (l.filter (fun f => !(ok f))).length = l.length := by
  intro l
  induction l with
  | nil => rfl
  | cons a t ih =>
    cases h : ok a with
    | true =>
      simp [List.filter_cons, h]
      omega
    | false =>
      simp [List.filter_cons, h]
      omega

theorem tallyResults_map_spec (ok : α → Bool) (files : List α) :
    tallyResults (files.map ok) =
      ((files.filter ok).length, (files.filter (fun f => !(ok f))).length) := by
  have hadd := length_filter_add_length_filter_not ok files
  simp only [tallyResults, length_filter_map_self, List.length_map, Prod.mk.injEq]
  exact ⟨trivial, by omega⟩

theorem promiseAll_ok_map : ∀ (l : List α), promiseAll (l.map Except.ok) = Except.ok l := by
  intro l
  induction l with
  | nil => rfl
  | cons a t ih => simp [List.map_cons, promiseAll, ih]

theorem promiseAll_error_of_mem : ∀ {l : List (Except Unit α)},
    (∃ e ∈ l, e = Except.error ()) → promiseAll l = Except.error () := by
  intro l
  induction l with
  | nil =>
    rintro ⟨e, he, -⟩
    simp at he
  | cons x t ih =>
    rintro ⟨e, he, herr⟩
    rcases List.mem_cons.mp he with hx | ht
    · rw [hx] at herr
      subst herr
      rfl
    · cases x with
      | error u => rfl
      | ok a =>
        have hp := ih ⟨e, ht, herr⟩
        simp [promiseAll, hp]

theorem uploadBatchRun_all_read_ok {behav : α → FileBehavior} {files : List α}
    (h : ∀ f ∈ files, (behav f).readOk = true) :
    uploadBatchRun behav files =
      Except.ok ((files.filter (fun f => uploadOutcome (behav f).sendOk)).length,
        (files.filter (fun f => !(uploadOutcome (behav f).sendOk))).length) := by
  have hmap : files.map (fun f => uploadFileRun (behav f)) =
      (files.map (fun f => uploadOutcome (behav f).sendOk)).map Except.ok := by
    rw [List.map_map]
    apply List.map_congr_left
    intro f hf
    show uploadFileRun (behav f) = Except.ok (uploadOutcome (behav f).sendOk)
    unfold uploadFileRun uploadOutcome
    rw [if_pos (h f hf)]
  unfold uploadBatchRun
  rw [hmap, promiseAll_ok_map]
  show Except.ok (tallyResults (files.map (fun f => uploadOutcome (behav f).sendOk))) = _
  rw [tallyResults_map_spec]

theorem uploadBatchRun_error_of_read_failure {behav : α → FileBehavior} {files : List α}
    (h : ∃ f ∈ files, (behav f).readOk = false) :
    uploadBatchRun behav files = Except.error () := by
  obtain ⟨f, hf, hr⟩ := h
  have hm : uploadFileRun (behav f) = Except.error () := by
    unfold uploadFileRun
    rw [if_neg (by simp [hr])]
  have hp : promiseAll (files.map (fun g => uploadFileRun (behav g))) = Except.error () :=
    promiseAll_error_of_mem ⟨uploadFileRun (behav f), List.mem_map_of_mem _ hf, hm⟩
  unfold uploadBatchRun
  rw [hp]

theorem runBatchesE_all_read_ok (behav : α → FileBehavior) :
    ∀ (bs : List (List α)) (acc : Nat × Nat),
    (∀ f ∈ bs.flatten, (behav f).readOk = true) →
    runBatchesE behav bs acc =
      Except.ok
        (acc.1 + ((bs.flatten).filter (fun f => uploadOutcome (behav f).sendOk)).length,
         acc.2 + ((bs.flatten).filter (fun f => !(uploadOutcome (behav f).sendOk))).length) := by
  intro bs
  induction bs with
  | nil =>
    intro acc _
    simp [runBatchesE]
  | cons b bs ih =>
    intro acc h
    have hb : ∀ f ∈ b, (behav f).readOk = true := fun f hf =>
      h f (by rw [List.flatten_cons]; exact List.mem_append_left _ hf)
    have hbs : ∀ f ∈ bs.flatten, (behav f).readOk = true := fun f hf =>
      h f (by rw [List.flatten_cons]; exact List.mem_append_right _ hf)
    show (match uploadBatchRun behav b with
      | Except.error _ => Except.error ()
      | Except.ok r => runBatchesE behav bs (addCounts acc r)) = _
    rw [uploadBatchRun_all_read_ok hb]
    show runBatchesE behav bs (addCounts acc _) = _
    rw [ih _ hbs]
    simp only [addCounts, List.flatten_cons, List.filter_append, List.length_append,
      Except.ok.injEq, Prod.mk.injEq]
    exact ⟨by omega, by omega⟩

theorem runBatchesE_error_of_read_failure (behav : α → FileBehavior) :
    ∀ (bs : List (List α)) (acc : Nat × Nat),
    (∃ f ∈ bs.flatten, (behav f).readOk = false) →
    runBatchesE behav bs acc = Except.error () := by
  intro bs
  induction bs with
  | nil =>
    rintro acc ⟨f, hf, -⟩
    simp at hf
  | cons b bs ih =>
    rintro acc ⟨f, hf, hr⟩
    rw [List.flatten_cons] at hf
    show (match uploadBatchRun behav b with
      | Except.error _ => Except.error ()
      | Except.ok r => runBatchesE behav bs (addCounts acc r)) = _
    rcases List.mem_append.mp hf with hfb | hfs
    · rw [uploadBatchRun_error_of_read_failure ⟨f, hfb, hr⟩]
    · cases hub : uploadBatchRun behav b with
      | error u => rfl
      | ok r => exact ih (addCounts acc r) ⟨f, hfs, hr⟩

theorem chunkBatches_join_fuel : ∀ (fuel : Nat) (xs : List α), xs.length ≤ fuel →
    (chunkBatches xs).flatten = xs := by
  intro fuel
  induction fuel with
  | zero =>
    intro xs h
    have hx : xs = [] := List.eq_nil_of_length_eq_zero (by omega)
    subst hx
    simp [chunkBatches]
  | succ k ih =>
    intro xs h
    cases xs with
    | nil => simp [chunkBatches]
    | cons x t =>
      simp only [chunkBatches]
      rw [List.flatten_cons, ih ((x :: t).drop 50)
        (by simp only [List.length_drop, List.length_cons] at h ⊢; omega)]
      exact List.take_append_drop 50 (x :: t)

theorem chunkBatches_flatten (xs : List α) : (chunkBatches xs).flatten = xs :=
  chunkBatches_join_fuel xs.length xs (le_refl _)

/-- C2: for every input string, the slug normalizer's output contains only
lowercase ASCII letters, digits and hyphens, never two adjacent hyphens and
no leading or trailing hyphen, and the normalizer is idempotent: applying it
to its own output returns that output unchanged. -/
theorem c2_slugify_wellformed_idempotent (s : String) :
    isGoodSlug (slugify s) = true ∧ slugify (slugify s) = slugify s := by
  constructor
  · exact isGoodSlug_of_goodSlugL (slugifyL_good s.data)
  · show String.mk (slugifyL (String.mk (slugifyL s.data)).data) = String.mk (slugifyL s.data)
    rw [show (String.mk (slugifyL s.data)).data = slugifyL s.data from rfl,
      slugifyL_eq_self (slugifyL_good s.data)]

/-- C3: after case-insensitively stripping the image suffix, the parser's
`size` facet equals the value of the first underscore-delimited digit run of
the stem (leftmost position wins), it is absent exactly when no position of
the stem starts such a run, and parsing is total, returning the full stem as
the base name. -/
theorem c3_size_is_first_delimited_digit_run (fn : String) :
    (parseFileDetails fn).baseName = String.mk (stripSvgExtL fn.data)
    ∧ ((parseFileDetails fn).size = none ↔
        ∀ i, sizeTokenAt ((stripSvgExtL fn.data).drop i) = none)
    ∧ ∀ n : Nat, ((parseFileDetails fn).size = some n ↔
        ∃ i, sizeTokenAt ((stripSvgExtL fn.data).drop i) = some n ∧
          ∀ j, j < i → sizeTokenAt ((stripSvgExtL fn.data).drop j) = none) := by
  refine ⟨rfl, ?_, ?_⟩
  · exact findSizeToken_none_iff (stripSvgExtL fn.data)
  · intro n
    exact findSizeToken_some_iff (stripSvgExtL fn.data) n

/-- Witness for C3: on a stem with two delimited digit runs the first one
(at position 1) wins. -/
theorem c3_size_witness : (parseFileDetails "a_12_b_7_.svg").size = some 12 :=
  ((c3_size_is_first_delimited_digit_run "a_12_b_7_.svg").2.2 12).mpr
    ⟨1, by decide, by decide⟩

/-- C9 counterexample: in a batch holding `bad.svg` (whose disk read fails)
and `good.svg` (which would read and upload successfully), the run rejects
outright instead of recording the failure in the per-batch failed count — a
single file's failure from this cause aborts the batch and the whole run,
refuting the claim's "from any cause" isolation. -/
theorem c9_read_failure_aborts_run :
    runUploadPipeline readFailureBehavior ["bad.svg", "good.svg"] = Except.error ()
    ∧ exceptIsOk (runUploadPipeline readFailureBehavior ["bad.svg", "good.svg"]) = false
    ∧ (readFailureBehavior "good.svg").readOk = true
    ∧ uploadOutcome (readFailureBehavior "good.svg").sendOk = true := by
  have h : runUploadPipeline readFailureBehavior ["bad.svg", "good.svg"] =
      Except.error () := by
    unfold runUploadPipeline
    apply runBatchesE_error_of_read_failure
    rw [chunkBatches_flatten]
    exact ⟨"bad.svg", by simp, by decide⟩
  refine ⟨h, by rw [h]; rfl, by decide, ?_⟩
  show uploadTries (readFailureBehavior "good.svg").sendOk 1 5 = true
  simp [uploadTries, readFailureBehavior]

/-- C9 amended: a single file's send failure is absorbed by the per-file
retry loop and never aborts anything — when every file's read succeeds, the
run completes and its totals are the pointwise per-file retry outcomes over
the exact partition of the file list into batches, recording each failure
only in the failed count; but a file whose disk read fails rejects its
batch's `Promise.all` uncaught, and the run aborts with an error instead of
producing counts or attempting later batches. -/
theorem c9_send_failures_isolated_read_failures_abort
    (behav : String → FileBehavior) (files : List String) :
    (chunkBatches files).flatten = files
    ∧ ((∀ f ∈ files, (behav f).readOk = true) →
        runUploadPipeline behav files =
          Except.ok ((files.filter (fun f => uploadOutcome (behav f).sendOk)).length,
            (files.filter (fun f => !(uploadOutcome (behav f).sendOk))).length))
    ∧ ((∃ f ∈ files, (behav f).readOk = false) →
        runUploadPipeline behav files = Except.error ()) := by
  refine ⟨chunkBatches_flatten files, ?_, ?_⟩
  · intro h
    unfold runUploadPipeline
    rw [runBatchesE_all_read_ok behav (chunkBatches files) (0, 0)
      (by rw [chunkBatches_flatten]; exact h)]
    rw [chunkBatches_flatten]
    simp
  · intro h
    unfold runUploadPipeline
    apply runBatchesE_error_of_read_failure
    rw [chunkBatches_flatten]
    exact h

/-- Witness for C9: with every read and send succeeding, the two-file
pipeline completes with both files counted as successes. -/
theorem c9_upload_pipeline_witness :
    runUploadPipeline allOkBehavior ["a.svg", "b.svg"] = Except.ok (2, 0) := by
  have h := (c9_send_failures_isolated_read_failures_abort allOkBehavior
    ["a.svg", "b.svg"]).2.1 (fun f _ => rfl)
  rw [h]
  have ht : uploadTries (fun _ => true) 1 5 = true := by simp [uploadTries]
  simp [uploadOutcome, allOkBehavior, ht]

/-- C1: for every discovered asset file, the record's `id` equals the
category slug, a hyphen and the extension-stripped filename stem with every
run of consecutive hyphens collapsed to one; and the "Access Time"
end-to-end example produces exactly the specified `id`, `categorySlug`,
`size`, `style` and `tags`. -/
theorem c1_id_formula_and_example :
    (∀ (baseUrl : Option String) (catName : String) (metadata : IconMetadata)
        (svgFile : String),
      (mkIconRecord baseUrl catName metadata svgFile).id =
        String.mk (collapseRuns ((slugify catName).data ++ '-' :: stripSvgExtL svgFile.data)))
    ∧ (generateManifest none [accessTimeCategory]).map IconRecord.id =
        ["access-time-access_time_20_filled"]
    ∧ (generateManifest none [accessTimeCategory]).map IconRecord.categorySlug =
        ["access-time"]
    ∧ (generateManifest none [accessTimeCategory]).map IconRecord.size = [some 20]
    ∧ (generateManifest none [accessTimeCategory]).map IconRecord.style = [some "filled"]
    ∧ (generateManifest none [accessTimeCategory]).map IconRecord.tags =
        [["number", "24", "Circle"]] := by
  refine ⟨fun baseUrl catName metadata svgFile => rfl, ?_, ?_, ?_, ?_, ?_⟩ <;> decide

/-- C5: when a category's descriptor read failed (missing, unreadable or
malformed), its qualifying asset files each still produce one catalog
record, with `name` equal to the raw category directory name and empty
`tags`. -/
theorem c5_descriptor_failure_fallback (baseUrl : Option String) (cat : CategoryFS)
    (hmeta : cat.catMeta = none) (hdir : cat.catIsDir = true)
    (hsvg : cat.svgStat = some true) :
    (recordsForCategory baseUrl cat).length = (cat.catFiles.filter isSvgFileName).length
    ∧ ∀ r ∈ recordsForCategory baseUrl cat, r.name = cat.catName ∧ r.tags = [] := by
  have hrec : recordsForCategory baseUrl cat =
      (cat.catFiles.filter isSvgFileName).map
        (mkIconRecord baseUrl cat.catName emptyMetadata) := by
    unfold recordsForCategory
    rw [if_neg (by simp [hdir]), if_pos hsvg, hmeta]
    rfl
  constructor
  · rw [hrec, List.length_map]
  · intro r hr
    rw [hrec] at hr
    obtain ⟨f, _, hf⟩ := List.mem_map.mp hr
    subst hf
    exact ⟨rfl, rfl⟩

/-- Witness for C5: a category with a failed descriptor read and one
qualifying file out of three still yields exactly the qualifying records. -/
theorem c5_descriptor_failure_witness :
    shapesCategory.catMeta = none
    ∧ (shapesCategory.catFiles.filter isSvgFileName).length = 2
    ∧ (recordsForCategory none shapesCategory).length =
        (shapesCategory.catFiles.filter isSvgFileName).length :=
  ⟨rfl, by decide, (c5_descriptor_failure_fallback none shapesCategory rfl rfl rfl).1⟩

/-- C6: a category whose `SVG` entry is missing or not a directory
contributes no records, and removing it from the walk leaves the manifest of
the remaining categories unchanged — the build does not abort. -/
theorem c6_missing_svg_dir_skipped (baseUrl : Option String)
    (pre post : List CategoryFS) (cat : CategoryFS) (h : cat.svgStat ≠ some true) :
    recordsForCategory baseUrl cat = []
    ∧ generateManifest baseUrl (pre ++ cat :: post) =
        generateManifest baseUrl (pre ++ post) := by
  have hc := @recordsForCategory_of_no_svgdir baseUrl cat h
  refine ⟨hc, ?_⟩
  rw [generateManifest_append, generateManifest_append]
  show _ ++ (recordsForCategory baseUrl cat ++ generateManifest baseUrl post) = _
  rw [hc, List.nil_append]

/-- Witness for C6: a category with a failed `SVG` stat leaves the
manifest of the remaining categories untouched. -/
theorem c6_missing_svg_dir_witness :
    noSvgCategory.svgStat ≠ some true
    ∧ generateManifest none [accessTimeCategory, noSvgCategory] =
        generateManifest none [accessTimeCategory] := by
  refine ⟨by decide, ?_⟩
  have h := (c6_missing_svg_dir_skipped none [accessTimeCategory] [] noSvgCategory
    (by decide)).2
  simpa using h

/-- C10: a category label with no character mapping to a lowercase ASCII
alphanumeric (after lowercasing, NFD decomposition and combining-mark
removal) slugifies to the empty string; every id generated for such a
category then begins with a hyphen, because the hyphen-run collapse used in
id construction preserves the first and last character of its input and so
never trims an edge hyphen. -/
theorem c10_all_symbol_label_empty_slug (label : String)
    (h : (preSlugChars label).all (fun c => !(isAlnumLower c)) = true) :
    slugify label = ""
    ∧ (∀ (baseUrl : Option String) (metadata : IconMetadata) (svgFile : String),
        ((mkIconRecord baseUrl label metadata svgFile).id).data.head? = some '-')
    ∧ (∀ l : List Char, (collapseRuns l).head? = l.head? ∧
        (collapseRuns l).getLast? = l.getLast?) := by
  have hmap : ∀ c ∈ (preSlugChars label).map toHyphenChar, c = '-' := by
    intro c hc
    obtain ⟨y, hy, hyc⟩ := List.mem_map.mp hc
    have hna : isAlnumLower y = false := by
      have hh := List.all_eq_true.mp h y hy
      simpa using hh
    rw [← hyc]
    simp [toHyphenChar, hna]
  have hslug : slugifyL label.data = [] := by
    unfold slugifyL trimHyphens
    have hall : ∀ c ∈ collapseRuns
        ((stripCombiningMarks (nfdExpand (label.data.map jsToLower))).map toHyphenChar),
        (fun c => c == '-') c = true := by
      intro c hc
      have hcm : c = '-' := hmap c (mem_of_mem_collapseRuns hc)
      simp [hcm]
    rw [List.dropWhile_eq_nil_iff.mpr hall]
    rfl
  have hempty : slugify label = "" := by
    show String.mk (slugifyL label.data) = ""
    rw [hslug]
  refine ⟨hempty, ?_, fun l => ⟨collapseRuns_head? l, collapseRuns_getLast? l⟩⟩
  intro baseUrl metadata svgFile
  show (collapseRuns (slugifyL label.data ++
    '-' :: (parseFileDetails svgFile).baseName.data)).head? = some '-'
  rw [hslug, List.nil_append, collapseRuns_head?]
  rfl

/-- Witness for C10: a punctuation-only label slugifies to the empty
string. -/
theorem c10_all_symbol_label_witness :
    (preSlugChars "++!").all (fun c => !(isAlnumLower c)) = true
    ∧ slugify "++!" = "" :=
  ⟨by decide, (c10_all_symbol_label_empty_slug "++!" (by decide)).1⟩

/-- C4 counterexample: with the base setting present but consisting solely
of a path separator, the claimed formula (stripped base, slash, encoded
segments) does not hold — the code computes a null `cdnUrl` instead, because
the stripped base is the empty string, which is falsy. -/
theorem c4_cdn_url_counterexample :
    (mkIconRecord (iconCdnBaseUrl (some "/")) "A" emptyMetadata "a.svg").cdnUrl ≠
      some (String.mk (stripTrailingSlashesL "/".data) ++ "/" ++
        encodeURIComponent "A" ++ "/SVG/" ++ encodeURIComponent "a.svg") := by
  decide

/-- C4 amended: when the base setting is present, nonempty, and still
nonempty after stripping trailing path separators, every record's `cdnUrl`
is the stripped base, `/`, the percent-encoded raw category name, `/SVG/`,
and the percent-encoded filename; when the setting is absent, empty, or
consists only of path separators, every record's `cdnUrl` is null. -/
theorem c4_cdn_url_formula (envVal : Option String) (catName : String)
    (metadata : IconMetadata) (svgFile : String) :
    (∀ s, envVal = some s → s ≠ "" → stripTrailingSlashesL s.data ≠ [] →
      (mkIconRecord (iconCdnBaseUrl envVal) catName metadata svgFile).cdnUrl =
        some (String.mk (stripTrailingSlashesL s.data) ++ "/" ++
          encodeURIComponent catName ++ "/SVG/" ++ encodeURIComponent svgFile))
    ∧ (envVal = none →
      (mkIconRecord (iconCdnBaseUrl envVal) catName metadata svgFile).cdnUrl = none)
    ∧ (∀ s, envVal = some s → (s = "" ∨ stripTrailingSlashesL s.data = []) →
      (mkIconRecord (iconCdnBaseUrl envVal) catName metadata svgFile).cdnUrl = none) := by
  refine ⟨?_, ?_, ?_⟩
  · intro s hs hne hstrip
    subst hs
    show recordCdnUrl (iconCdnBaseUrl (some s)) catName svgFile = _
    have hne2 : String.mk (stripTrailingSlashesL s.data) ≠ "" := by
      intro hcon
      apply hstrip
      have h2 := congrArg String.data hcon
      simpa using h2
    simp only [iconCdnBaseUrl, if_neg hne, recordCdnUrl, if_neg hne2]
  · intro hs
    subst hs
    rfl
  · intro s hs hd
    subst hs
    show recordCdnUrl (iconCdnBaseUrl (some s)) catName svgFile = none
    by_cases hse : s = ""
    · simp [iconCdnBaseUrl, hse, recordCdnUrl]
    · rcases hd with hd | hd
      · exact absurd hd hse
      · simp only [iconCdnBaseUrl, if_neg hse, recordCdnUrl, hd]
        rw [if_pos]
        decide

/-- Witness for C4: a real base URL with a trailing slash yields the
stripped-and-encoded URL. -/
theorem c4_cdn_url_witness :
    (mkIconRecord (iconCdnBaseUrl (some "https://cdn.example.com/")) "A B" emptyMetadata
      "a b.svg").cdnUrl = some "https://cdn.example.com/A%20B/SVG/a%20b.svg" := by
  have h := (c4_cdn_url_formula (some "https://cdn.example.com/") "A B" emptyMetadata
    "a b.svg").1 "https://cdn.example.com/" rfl (by decide) (by decide)
  rw [h]
  decide

/-- C7 counterexample: one step into the write trace — after `writeFile` has
truncated the output path but before the content lands — an external reader
of the output path observes the empty file, which is neither the complete
prior manifest nor the complete new one, so the write is not all-or-nothing
as claimed. -/
theorem c7_writer_not_atomic :
    observedAfter "old-manifest" (writeFileEvents "new-manifest") 1 ≠ "old-manifest"
    ∧ observedAfter "old-manifest" (writeFileEvents "new-manifest") 1 ≠ "new-manifest" := by
  decide

/-- C7 amended: the writer performs one direct whole-content `writeFile` on
the output path (a truncate-then-append trace of length two, with no
temporary location or atomic rename); once the trace completes, the
observable content is exactly the complete new manifest, fully superseding
any prior content — but intermediate states are observable mid-write. -/
theorem c7_writer_single_direct_write (prior content : String) :
    (writeFileEvents content).length = 2
    ∧ observedAfter prior (writeFileEvents content) (writeFileEvents content).length =
        content := by
  constructor
  · rfl
  · show ("" : String) ++ content = content
    simp

/-- C8 counterexample: every one of the four required settings is present
(set in the environment), the bucket name being the empty string, yet
configuration loading fails — so presence of all four does not guarantee
success as claimed. -/
theorem c8_config_counterexample :
    envEmptyBucket.R2_ACCOUNT_ID.isSome = true
    ∧ envEmptyBucket.R2_ACCESS_KEY_ID.isSome = true
    ∧ envEmptyBucket.R2_SECRET_ACCESS_KEY.isSome = true
    ∧ envEmptyBucket.R2_BUCKET_NAME.isSome = true
    ∧ exceptIsOk (getConfig envEmptyBucket) = false
    ∧ exceptErrorMsg (getConfig envEmptyBucket) =
        some "Missing required environment variables: R2_BUCKET_NAME" := by
  refine ⟨rfl, rfl, rfl, rfl, ?_, ?_⟩ <;> decide

/-- C8 amended: a required setting counts as missing when it is absent or
set to the empty string (falsy); whenever at least one is missing,
`getConfig` fails with a single error message enumerating exactly the
missing settings, in the fixed test order; when all four are present and
nonempty, configuration loading succeeds. -/
theorem c8_config_enumerates_missing (env : UploadEnvVars) :
    ("R2_ACCOUNT_ID" ∈ missingVars env ↔ isBlank env.R2_ACCOUNT_ID = true)
    ∧ ("R2_ACCESS_KEY_ID" ∈ missingVars env ↔ isBlank env.R2_ACCESS_KEY_ID = true)
    ∧ ("R2_SECRET_ACCESS_KEY" ∈ missingVars env ↔ isBlank env.R2_SECRET_ACCESS_KEY = true)
    ∧ ("R2_BUCKET_NAME" ∈ missingVars env ↔ isBlank env.R2_BUCKET_NAME = true)
    ∧ (missingVars env ≠ [] →
        getConfig env = Except.error
          ("Missing required environment variables: " ++
            String.intercalate ", " (missingVars env)))
    ∧ (missingVars env = [] → ∃ c, getConfig env = Except.ok c) := by
  cases h1 : isBlank env.R2_ACCOUNT_ID <;>
  cases h2 : isBlank env.R2_ACCESS_KEY_ID <;>
  cases h3 : isBlank env.R2_SECRET_ACCESS_KEY <;>
  cases h4 : isBlank env.R2_BUCKET_NAME <;>
  · refine ⟨?_, ?_, ?_, ?_, ?_, ?_⟩ <;>
      simp_all [missingVars, getConfig]

/-- Witness for C8: with the access key unset and the secret empty, the
single startup error lists both missing settings. -/
theorem c8_config_witness :
    exceptErrorMsg (getConfig envMissingTwo) =
      some "Missing required environment variables: R2_ACCESS_KEY_ID, R2_SECRET_ACCESS_KEY" := by
  have h := (c8_config_enumerates_missing envMissingTwo).2.2.2.2.1 (by decide)
  rw [congrArg exceptErrorMsg h]
  decide

end IconCatalog
